import Mathlib

/-!
# SH1106 frame-buffer driver: page transcoding, refresh, initialisation, contrast

A shallow embedding of `src/sh1106fb.c`.

Conventions of the embedding

* `u8`, `u32` and `unsigned long` values are natural numbers; every place where
  the C code converts or wraps is written with an explicit `%`.
* The loop counters `i`, `j`, `k` of `sh1106fb_update_display` are C `int`s.
  They are natural numbers here; signed overflow is undefined in C and is not
  modelled.
* `kzalloc` is taken to succeed, so the `-ENOMEM` exits are not modelled.
* The I2C bus is a record of the messages handed to `i2c_master_send`, oldest
  first, together with the value the bus answers to each transfer.
-/

namespace SH1106FB

/-! ## Constants -/

def U32_MOD : Nat := 4294967296

def SH1106FB_DATA : Nat := 0x40
def SH1106FB_COMMAND : Nat := 0x00
def SH1106FB_DISPLAY_OFF : Nat := 0xAE
def SH1106FB_DISPLAY_ON : Nat := 0xAF
def SH1106FB_SET_CLOCK_FREQ : Nat := 0xD5
def SH1106FB_SET_MULTIPLEX_RATIO : Nat := 0xA8
def SH1106FB_SET_DISPLAY_OFFSET : Nat := 0xD3
def SH1106FB_CHARGE_PUMP : Nat := 0x8D
def SH1106FB_SET_ADDRESS_MODE : Nat := 0x20
def SH1106FB_SET_ADDRESS_MODE_PAGE : Nat := 0x02
def SH1106FB_SEG_REMAP_ON : Nat := 0xA1
def SH1106FB_SET_COM_SCAN_DIRECTION : Nat := 0xC8
def SH1106FB_SET_COM_PINS_CONFIG : Nat := 0xDA
def SH1106FB_CONTRAST : Nat := 0x81
def SH1106FB_SET_PRECHARGE_PERIOD : Nat := 0xD9
def SH1106FB_SET_VCOMH : Nat := 0xDB
def MAX_CONTRAST : Nat := 255

def EINVAL : Int := 22
def EFAULT : Int := 14

/-- The kernel macro `DIV_ROUND_UP(n, d)`, that is `(((n) + (d) - 1) / (d))`,
evaluated in `u32` arithmetic as it is at both of its uses in the driver. -/
def DIV_ROUND_UP (n d : Nat) : Nat := ((n + d - 1) % U32_MOD) / d

/-! ## Device state -/

/-- The fields of `struct sh1106fb_par` that the modelled functions touch,
with the fields of `par->info` they read (`fix.line_length`, `fix.smem_len`,
`screen_buffer`) placed next to them. -/
structure sh1106fb_par where
  contrast : Nat
  height : Nat
  width : Nat
  line_length : Nat
  smem_len : Nat
  screen_buffer : List Nat

/-- The I2C client. `replies n len` is what `i2c_master_send` returns for the
transfer number `n` (counted from 0) when asked to send `len` bytes; `sent`
lists the messages handed to the bus so far. -/
structure i2c_client where
  replies : Nat → Nat → Int
  sent : List (List Nat)

/-- A `struct sh1106fb_array`: the type tag and the data bytes after it. -/
structure sh1106fb_array where
  type : Nat
  data : List Nat

/-- The bytes of a `struct sh1106fb_array` in memory order. -/
def sh1106fb_array.bytes (a : sh1106fb_array) : List Nat := a.type :: a.data

/-! ## Bus primitives -/

/-- Modelled from the spec: the command channel behind the kernel call
`i2c_master_send(client, buf, count)`, which takes a payload of any length and
reports a result per transfer. The first `count` bytes of `buf` go to the bus
and the bus answers. -/
def i2c_master_send (client : i2c_client) (buf : List Nat) (count : Nat) :
    Int × i2c_client :=
  (client.replies client.sent.length count,
   { client with sent := client.sent ++ [buf.take count] })

/-- The function `sh1106fb_write_array`: `len` grows by the size of the tag,
the array is sent, and any answer other than `len` is returned as it is. -/
def sh1106fb_write_array (client : i2c_client) (array : sh1106fb_array) (len : Nat) :
    Int × i2c_client :=
  let len1 := (len + 1) % U32_MOD
  let r := i2c_master_send client array.bytes len1
  if r.1 % (U32_MOD : Int) ≠ (len1 : Int) then (r.1, r.2) else (0, r.2)

/-- The function `sh1106fb_write_cmd`; its parameter `cmd` is a `u8`, so the
argument is reduced modulo 256 on entry. -/
def sh1106fb_write_cmd (client : i2c_client) (cmd : Nat) : Int × i2c_client :=
  sh1106fb_write_array client ⟨SH1106FB_COMMAND, [cmd % 256]⟩ 1

/-! ## Page transcoding (the body of the loop over `i`) -/

/-- The value of `m` for page `i`: the last page may be partial. -/
def rows_in_page (height pages i : Nat) : Nat :=
  if i + 1 = pages ∧ height % 8 ≠ 0 then height % 8 else 8

/-- The index of the byte read for page `i`, column `j`, row `k` of the page,
computed in `unsigned int` arithmetic. -/
def vmem_index (line_length i j k : Nat) : Nat :=
  ((8 * i + k) * line_length + j / 8) % U32_MOD

/-- The loop over `k` for column `j` of page `i`, run for `m` rounds from
`array->data[j] = 0`; `none` when a read leaves the buffer. -/
def column_byte (vmem : List Nat) (line_length i j : Nat) : Nat → Option Nat
  | 0 => some 0
  | k + 1 =>
    match column_byte vmem line_length i j k, vmem[vmem_index line_length i j k]? with
    | some acc, some byte => some ((acc ||| (((byte >>> (j % 8)) &&& 1) <<< k)) % 256)
    | _, _ => none

/-- The loop over `j`, run for `n` columns: the bytes `array->data[0..n)`. -/
def page_columns (vmem : List Nat) (line_length height pages i : Nat) : Nat → Option (List Nat)
  | 0 => some []
  | j + 1 =>
    match page_columns vmem line_length height pages i j,
          column_byte vmem line_length i j (rows_in_page height pages i) with
    | some p, some b => some (p ++ [b])
    | _, _ => none

/-- The payload built for page `i`. -/
def page_payload (par : sh1106fb_par) (pages i : Nat) : Option (List Nat) :=
  page_columns par.screen_buffer par.line_length par.height pages i par.width

/-! ## Refresh -/

/-- One round of the loop over `i` in `sh1106fb_update_display`. The results
of the four writes are dropped, as in the source. -/
def update_display_page (par : sh1106fb_par) (pages i : Nat) (client : i2c_client) :
    Option i2c_client :=
  let c1 := (sh1106fb_write_cmd client (0xb0 + i)).2
  let c2 := (sh1106fb_write_cmd c1 0x10).2
  let c3 := (sh1106fb_write_cmd c2 0x02).2
  match page_payload par pages i with
  | some data => some (sh1106fb_write_array c3 ⟨SH1106FB_DATA, data⟩ par.width).2
  | none => none

/-- The first `n` rounds of the loop over `i`. -/
def update_display_loop (par : sh1106fb_par) (pages : Nat) : Nat → i2c_client → Option i2c_client
  | 0, client => some client
  | n + 1, client =>
    match update_display_loop par pages n client with
    | some c => update_display_page par pages n c
    | none => none

/-- The function `sh1106fb_update_display`; `none` when a read leaves the
frame buffer. -/
def sh1106fb_update_display (par : sh1106fb_par) (client : i2c_client) : Option i2c_client :=
  let pages := DIV_ROUND_UP par.height 8
  update_display_loop par pages pages client


/-! ## Bitmap accessors of the specification -/

/-- The pixel at `(row, col)` of a row-major bitmap, in the words of the
specification: bit `col mod 8` of `buffer[row * line_length + col / 8]`. -/
def spec_pixel (vmem : List Nat) (line_length row col : Nat) : Bool :=
  (vmem.getD (row * line_length + col / 8) 0).testBit (col % 8)

/-- A bitmap write in the words of the specification: the pixel at
`(row, col)` becomes `v`, every other bit of the buffer is kept. -/
def spec_set_pixel (vmem : List Nat) (line_length row col : Nat) (v : Bool) : List Nat :=
  let idx := row * line_length + col / 8
  let b := vmem.getD idx 0
  vmem.set idx (if b.testBit (col % 8) = v then b else b ^^^ (1 <<< (col % 8)))

/-! ## Initialisation -/

/-- The function `sh1106fb_init`: twenty-five commands, every result dropped,
and the constant 0 returned. -/
def sh1106fb_init (_par : sh1106fb_par) (client : i2c_client) : Int × i2c_client :=
  let c := (sh1106fb_write_cmd client SH1106FB_DISPLAY_OFF).2
  let c := (sh1106fb_write_cmd c SH1106FB_SET_CLOCK_FREQ).2
  let c := (sh1106fb_write_cmd c 0x80).2
  let c := (sh1106fb_write_cmd c SH1106FB_SET_MULTIPLEX_RATIO).2
  let c := (sh1106fb_write_cmd c 0x3F).2
  let c := (sh1106fb_write_cmd c SH1106FB_SET_DISPLAY_OFFSET).2
  let c := (sh1106fb_write_cmd c 0x00).2
  let c := (sh1106fb_write_cmd c 0x40).2
  let c := (sh1106fb_write_cmd c SH1106FB_CHARGE_PUMP).2
  let c := (sh1106fb_write_cmd c 0x14).2
  let c := (sh1106fb_write_cmd c SH1106FB_SET_ADDRESS_MODE).2
  let c := (sh1106fb_write_cmd c SH1106FB_SET_ADDRESS_MODE_PAGE).2
  let c := (sh1106fb_write_cmd c SH1106FB_SEG_REMAP_ON).2
  let c := (sh1106fb_write_cmd c SH1106FB_SET_COM_SCAN_DIRECTION).2
  let c := (sh1106fb_write_cmd c SH1106FB_SET_COM_PINS_CONFIG).2
  let c := (sh1106fb_write_cmd c 0x12).2
  let c := (sh1106fb_write_cmd c SH1106FB_CONTRAST).2
  let c := (sh1106fb_write_cmd c 0x7F).2
  let c := (sh1106fb_write_cmd c SH1106FB_SET_PRECHARGE_PERIOD).2
  let c := (sh1106fb_write_cmd c 0xF1).2
  let c := (sh1106fb_write_cmd c SH1106FB_SET_VCOMH).2
  let c := (sh1106fb_write_cmd c 0x30).2
  let c := (sh1106fb_write_cmd c 0xA4).2
  let c := (sh1106fb_write_cmd c 0xA6).2
  let c := (sh1106fb_write_cmd c SH1106FB_DISPLAY_ON).2
  (0, c)

/-! ## Contrast -/

/-- The function `sh1106fb_update_bl`, with `bdev->props.brightness` passed as
`brightness` (an `int`). The store into the `u32` field `contrast` comes
first; each send is checked for a negative result only. -/
def sh1106fb_update_bl (par : sh1106fb_par) (client : i2c_client) (brightness : Int) :
    Int × sh1106fb_par × i2c_client :=
  let par1 := { par with contrast := (brightness % (U32_MOD : Int)).toNat }
  let r1 := sh1106fb_write_cmd client SH1106FB_CONTRAST
  if r1.1 < 0 then (r1.1, par1, r1.2)
  else
    let r2 := sh1106fb_write_cmd r1.2 par1.contrast
    if r2.1 < 0 then (r2.1, par1, r2.2)
    else (0, par1, r2.2)

/-- The function `sh1106fb_get_brightness`: the `u32` field read back as an
`int`. -/
def sh1106fb_get_brightness (par : sh1106fb_par) : Int :=
  if par.contrast % U32_MOD < 2147483648 then ((par.contrast % U32_MOD : Nat) : Int)
  else ((par.contrast % U32_MOD : Nat) : Int) - (U32_MOD : Int)

/-! ## Raw write -/

/-- What a call of `sh1106fb_write` does: the value returned, the file
position afterwards, and the destination range `(offset, length)` handed to
`copy_from_user`, if the call gets that far. -/
structure write_result where
  ret : Int
  ppos : Nat
  copied : Option (Nat × Nat)
deriving DecidableEq

/-- The clip of `count` in `sh1106fb_write` (`if (count + p > total_size)
count = total_size - p;`), the sum taken in `w`-bit words. -/
def clip_count (w total_size p count : Nat) : Nat :=
  if (count + p) % 2 ^ w > total_size then total_size - p else count

/-- The function `sh1106fb_write` on a machine with `w`-bit words
(`unsigned long` and `size_t`). `total_size` is `info->fix.smem_len`, `ppos`
is the 64-bit file position `*ppos` on entry, `fault` tells whether
`copy_from_user` reports a fault. The return value is the `size_t` count read
as an `ssize_t`, and `*ppos += count` is taken modulo `2 ^ 64`. The refresh
after a successful copy is `sh1106fb_update_display` and is not repeated
here. -/
def sh1106fb_write (w total_size ppos count : Nat) (fault : Bool) : write_result :=
  let p := ppos % 2 ^ w
  if p > total_size then ⟨-EINVAL, ppos, none⟩
  else
    let count1 := clip_count w total_size p count
    if count1 = 0 then ⟨-EINVAL, ppos, none⟩
    else if fault then ⟨-EFAULT, ppos, some (p, count1)⟩
    else
      ⟨if count1 < 2 ^ (w - 1) then (count1 : Int) else (count1 : Int) - (2 ^ w : Nat),
       (ppos + count1) % 2 ^ 64, some (p, count1)⟩

/-! ## Attach -/

/-- The part of `sh1106fb_probe` that sets up the geometry, the contrast and
the zero-filled video memory from the configured `width` and `height`. -/
def sh1106fb_probe (width height : Nat) : sh1106fb_par :=
  let vmem_size := (DIV_ROUND_UP width 8 * height) % U32_MOD
  { contrast := 127
    height := height
    width := width
    line_length := DIV_ROUND_UP width 8
    smem_len := vmem_size
    screen_buffer := List.replicate vmem_size 0 }

/-- A bus on which every transfer is complete. -/
def bus_ok (client : i2c_client) : Prop := ∀ n len, client.replies n len = (len : Int)

/-- A fresh client whose bus always answers with the full length. -/
def good_client : i2c_client := ⟨fun _ len => (len : Int), []⟩

/-- A fresh client whose bus answers `err` to transfer number `k` and the full
length to every other transfer. -/
def failing_client (k : Nat) (err : Int) : i2c_client :=
  ⟨fun n len => if n = k then err else (len : Int), []⟩

/-! ## Transcoder lemmas -/

theorem bit_extract (byte s : Nat) :
    (byte >>> s) &&& 1 = if byte.testBit s then 1 else 0 := by
  rw [Nat.and_one_is_mod, Nat.testBit_to_div_mod, Nat.shiftRight_eq_div_pow]
  rcases Nat.mod_two_eq_zero_or_one (byte / 2 ^ s) with h | h <;> simp [h]

theorem testBit_bit_shift (b : Bool) (m k : Nat) :
    ((if b then 1 else 0) <<< m).testBit k = (b && decide (k = m)) := by
  rw [Nat.testBit_shiftLeft]
  cases b
  · simp
  · by_cases h : k = m
    · subst h; simp
    · by_cases h2 : m ≤ k
      · obtain ⟨n, hn⟩ : ∃ n, k - m = n + 1 := ⟨k - m - 1, by omega⟩
        simp [h, h2, hn, Nat.testBit_succ]
      · simp [h, h2]

theorem column_byte_spec (vmem : List Nat) (line_length i j : Nat) :
    ∀ m, m ≤ 8 → (∀ k, k < m → vmem_index line_length i j k < vmem.length) →
      ∃ v, column_byte vmem line_length i j m = some v ∧
        ∀ k, v.testBit k =
          (decide (k < m) && (vmem.getD (vmem_index line_length i j k) 0).testBit (j % 8)) := by
  intro m
  induction m with
  | zero => intro _ _; exact ⟨0, rfl, by simp⟩
  | succ m ih =>
    intro hm hb
    obtain ⟨acc, hacc, hbits⟩ := ih (by omega) (fun k hk => hb k (by omega))
    have hlt := hb m (by omega)
    refine ⟨(acc ||| (((vmem[vmem_index line_length i j m]) >>> (j % 8)) &&& 1) <<< m) % 256,
      by simp only [column_byte, hacc, List.getElem?_eq_getElem hlt], ?_⟩
    intro k
    have h256 : (256 : Nat) = 2 ^ 8 := by norm_num
    rw [h256, Nat.testBit_mod_two_pow, Nat.testBit_or, hbits, bit_extract, testBit_bit_shift]
    have hget : vmem.getD (vmem_index line_length i j m) 0 = vmem[vmem_index line_length i j m] := by
      simp [List.getD, List.getElem?_eq_getElem hlt]
    by_cases hk : k < m
    · have : k ≠ m := by omega
      have : k < 8 := by omega
      simp [*]
      omega
    · by_cases hkm : k = m
      · subst hkm
        have : k < 8 := by omega
        simp [*, hget]
      · have : ¬ k < m + 1 := by omega
        simp [*]

theorem row_lt_height (height pages i k : Nat) (hp : pages = (height + 7) / 8)
    (hi : i < pages) (hk : k < rows_in_page height pages i) : 8 * i + k < height := by
  unfold rows_in_page at hk
  split at hk <;> omega

theorem rows_in_page_le (height pages i : Nat) : rows_in_page height pages i ≤ 8 := by
  unfold rows_in_page
  split <;> omega

theorem raw_index_lt (width height line_length row j : Nat)
    (hll : line_length = (width + 7) / 8) (hj : j < width) (hrow : row < height) :
    row * line_length + j / 8 < line_length * height := by
  have h1 : j / 8 < line_length := by omega
  have h2 : (row + 1) * line_length ≤ height * line_length :=
    Nat.mul_le_mul_right _ hrow
  have h3 : (row + 1) * line_length = row * line_length + line_length := by ring
  have h4 : height * line_length = line_length * height := Nat.mul_comm _ _
  omega

theorem vmem_index_le (line_length i j k : Nat) :
    vmem_index line_length i j k ≤ (8 * i + k) * line_length + j / 8 :=
  Nat.mod_le _ _

theorem vmem_index_eq (line_length i j k : Nat)
    (h : (8 * i + k) * line_length + j / 8 < U32_MOD) :
    vmem_index line_length i j k = (8 * i + k) * line_length + j / 8 :=
  Nat.mod_eq_of_lt h

theorem page_columns_spec (vmem : List Nat) (line_length height pages i : Nat) :
    ∀ n, (∀ j, j < n → ∀ k, k < rows_in_page height pages i →
            vmem_index line_length i j k < vmem.length) →
      ∃ p, page_columns vmem line_length height pages i n = some p ∧ p.length = n ∧
        ∀ j, j < n →
          some (p.getD j 0) = column_byte vmem line_length i j (rows_in_page height pages i) := by
  intro n
  induction n with
  | zero => intro _; exact ⟨[], rfl, rfl, by intro j hj; omega⟩
  | succ n ih =>
    intro hb
    obtain ⟨p, hp, hlen, hcols⟩ := ih (fun j hj => hb j (by omega))
    obtain ⟨v, hv, _⟩ := column_byte_spec vmem line_length i n _
      (rows_in_page_le height pages i) (hb n (by omega))
    refine ⟨p ++ [v], by simp only [page_columns, hp, hv], by simp [hlen], ?_⟩
    intro j hj
    by_cases hjn : j < n
    · rw [← hcols j hjn]
      simp [List.getD, List.getElem?_append_left, hlen, hjn]
    · have : j = n := by omega
      subst this
      rw [hv]
      simp [List.getD, List.getElem?_append_right, hlen]

theorem index_in_buffer (vmem : List Nat) (width height line_length pages i j k : Nat)
    (hll : line_length = (width + 7) / 8)
    (hlen : vmem.length = line_length * height)
    (hpages : pages = (height + 7) / 8) (hi : i < pages)
    (hj : j < width) (hk : k < rows_in_page height pages i) :
    vmem_index line_length i j k < vmem.length := by
  have hrow := row_lt_height height pages i k hpages hi hk
  have hraw := raw_index_lt width height line_length (8 * i + k) j hll hj hrow
  have hle := vmem_index_le line_length i j k
  omega

theorem page_payload_bits (par : sh1106fb_par) (pages i : Nat)
    (hll : par.line_length = (par.width + 7) / 8)
    (hlen : par.screen_buffer.length = par.line_length * par.height)
    (hsz : par.screen_buffer.length < U32_MOD)
    (hpages : pages = (par.height + 7) / 8) (hi : i < pages) :
    ∃ p, page_payload par pages i = some p ∧ p.length = par.width ∧
      ∀ j, j < par.width → ∀ k,
        (p.getD j 0).testBit k =
          (decide (k < rows_in_page par.height pages i) &&
            spec_pixel par.screen_buffer par.line_length (8 * i + k) j) := by
  have hb : ∀ j, j < par.width → ∀ k, k < rows_in_page par.height pages i →
      vmem_index par.line_length i j k < par.screen_buffer.length :=
    fun j hj k hk => index_in_buffer _ _ _ _ _ _ _ _ hll hlen hpages hi hj hk
  obtain ⟨p, hp, hplen, hcols⟩ :=
    page_columns_spec par.screen_buffer par.line_length par.height pages i par.width hb
  refine ⟨p, hp, hplen, ?_⟩
  intro j hj k
  obtain ⟨v, hv, hbits⟩ := column_byte_spec par.screen_buffer par.line_length i j _
    (rows_in_page_le par.height pages i) (hb j hj)
  have hpv : p.getD j 0 = v := by
    have := hcols j hj
    rw [hv] at this
    exact Option.some.inj this
  rw [hpv, hbits k]
  by_cases hk : k < rows_in_page par.height pages i
  · have hrow := row_lt_height par.height pages i k hpages hi hk
    have hraw := raw_index_lt par.width par.height par.line_length (8 * i + k) j hll hj hrow
    rw [vmem_index_eq _ _ _ _ (by omega)]
    rfl
  · simp [hk]

theorem rowmod_lt_rows (height pages row : Nat) (hp : pages = (height + 7) / 8)
    (hrow : row < height) : row % 8 < rows_in_page height pages (row / 8) := by
  unfold rows_in_page
  split <;> omega

theorem spec_pixel_set (vmem : List Nat) (line_length row col : Nat) (v : Bool)
    (h : row * line_length + col / 8 < vmem.length) :
    spec_pixel (spec_set_pixel vmem line_length row col v) line_length row col = v := by
  unfold spec_pixel spec_set_pixel
  simp only [List.getD_eq_getElem?_getD, List.getElem?_set_self h, Option.getD_some]
  split
  · assumption
  · rename_i hne
    rw [Nat.testBit_xor, Nat.testBit_shiftLeft]
    cases hb : (vmem[row * line_length + col / 8]?.getD 0).testBit (col % 8) <;>
      cases v <;> simp_all

theorem page_payload_some (par : sh1106fb_par) (pages i : Nat)
    (hll : par.line_length = (par.width + 7) / 8)
    (hlen : par.screen_buffer.length = par.line_length * par.height)
    (hpages : pages = (par.height + 7) / 8) (hi : i < pages) :
    ∃ p, page_payload par pages i = some p ∧ p.length = par.width ∧
      ∀ j, j < par.width → ∀ k, rows_in_page par.height pages i ≤ k →
        (p.getD j 0).testBit k = false := by
  have hb : ∀ j, j < par.width → ∀ k, k < rows_in_page par.height pages i →
      vmem_index par.line_length i j k < par.screen_buffer.length :=
    fun j hj k hk => index_in_buffer _ _ _ _ _ _ _ _ hll hlen hpages hi hj hk
  obtain ⟨p, hp, hplen, hcols⟩ :=
    page_columns_spec par.screen_buffer par.line_length par.height pages i par.width hb
  refine ⟨p, hp, hplen, ?_⟩
  intro j hj k hk
  obtain ⟨v, hv, hbits⟩ := column_byte_spec par.screen_buffer par.line_length i j _
    (rows_in_page_le par.height pages i) (hb j hj)
  have hpv : p.getD j 0 = v := by
    have := hcols j hj
    rw [hv] at this
    exact Option.some.inj this
  rw [hpv, hbits k]
  have : ¬ k < rows_in_page par.height pages i := by omega
  simp [this]

/-! ## Bus and loop lemmas -/

theorem DIV_ROUND_UP_eq (n : Nat) (h : n + 7 < U32_MOD) : DIV_ROUND_UP n 8 = (n + 7) / 8 := by
  unfold DIV_ROUND_UP
  rw [show n + 8 - 1 = n + 7 from rfl, Nat.mod_eq_of_lt h]

theorem DIV_ROUND_UP_wrap (n : Nat) (h : n < U32_MOD) (h7 : ¬ n + 7 < U32_MOD) :
    DIV_ROUND_UP n 8 = 0 := by
  unfold DIV_ROUND_UP U32_MOD at *
  omega

theorem write_array_sent (client : i2c_client) (array : sh1106fb_array) (len : Nat) :
    (sh1106fb_write_array client array len).2.sent
      = client.sent ++ [array.bytes.take ((len + 1) % U32_MOD)] := by
  unfold sh1106fb_write_array i2c_master_send
  dsimp only
  split <;> rfl

theorem write_array_replies (client : i2c_client) (array : sh1106fb_array) (len : Nat) :
    (sh1106fb_write_array client array len).2.replies = client.replies := by
  unfold sh1106fb_write_array i2c_master_send
  dsimp only
  split <;> rfl

theorem write_cmd_sent (client : i2c_client) (cmd : Nat) :
    (sh1106fb_write_cmd client cmd).2.sent = client.sent ++ [[SH1106FB_COMMAND, cmd % 256]] := by
  unfold sh1106fb_write_cmd
  rw [write_array_sent]
  rfl

theorem write_cmd_replies (client : i2c_client) (cmd : Nat) :
    (sh1106fb_write_cmd client cmd).2.replies = client.replies :=
  write_array_replies _ _ _

theorem update_display_loop_some (par : sh1106fb_par) (pages : Nat)
    (hall : ∀ i, i < pages → ∃ p, page_payload par pages i = some p) :
    ∀ n, n ≤ pages → ∀ client, ∃ c, update_display_loop par pages n client = some c := by
  intro n
  induction n with
  | zero => intro _ client; exact ⟨client, rfl⟩
  | succ n ih =>
    intro hn client
    obtain ⟨c, hc⟩ := ih (by omega) client
    obtain ⟨p, hp⟩ := hall n (by omega)
    rw [update_display_loop, hc]
    simp only [update_display_page, hp]
    exact ⟨_, rfl⟩

theorem update_display_page_sent (par : sh1106fb_par) (pages i : Nat) (client : i2c_client)
    (p : List Nat) (hp : page_payload par pages i = some p) :
    ∃ c, update_display_page par pages i client = some c ∧ c.replies = client.replies ∧
      c.sent = client.sent ++
        [[SH1106FB_COMMAND, (0xb0 + i) % 256], [SH1106FB_COMMAND, 0x10], [SH1106FB_COMMAND, 0x02],
         (SH1106FB_DATA :: p).take ((par.width + 1) % U32_MOD)] := by
  have hstep : update_display_page par pages i client
      = some (sh1106fb_write_array (sh1106fb_write_cmd (sh1106fb_write_cmd
          (sh1106fb_write_cmd client (0xb0 + i)).2 0x10).2 0x02).2
          ⟨SH1106FB_DATA, p⟩ par.width).2 := by
    simp only [update_display_page, hp]
  refine ⟨_, hstep, ?_, ?_⟩
  · simp only [write_array_replies, write_cmd_replies]
  · simp only [write_array_sent, write_cmd_sent, sh1106fb_array.bytes, List.append_assoc,
      List.singleton_append]
    rfl

theorem update_display_loop_trace (par : sh1106fb_par) (pages : Nat)
    (hwid : par.width + 1 < U32_MOD)
    (hall : ∀ i, i < pages → ∃ p, page_payload par pages i = some p ∧ p.length = par.width) :
    ∀ n, n ≤ pages → ∀ client, ∃ c T, update_display_loop par pages n client = some c ∧
      c.sent = client.sent ++ T ∧ T.length = 4 * n ∧
      ∀ i, i < n → ∃ p, page_payload par pages i = some p ∧ p.length = par.width ∧
        T[4 * i]? = some [SH1106FB_COMMAND, (0xb0 + i) % 256] ∧
        T[4 * i + 1]? = some [SH1106FB_COMMAND, 0x10] ∧
        T[4 * i + 2]? = some [SH1106FB_COMMAND, 0x02] ∧
        T[4 * i + 3]? = some (SH1106FB_DATA :: p) := by
  intro n
  induction n with
  | zero => intro _ client; exact ⟨client, [], rfl, by simp, rfl, by intro i hi; omega⟩
  | succ n ih =>
    intro hn client
    obtain ⟨c, T, hc, hsent, hT, hpages⟩ := ih (by omega) client
    obtain ⟨p, hp, hplen⟩ := hall n (by omega)
    obtain ⟨c2, hc2, _, hsent2⟩ := update_display_page_sent par pages n c p hp
    have htake : (SH1106FB_DATA :: p).take ((par.width + 1) % U32_MOD) = SH1106FB_DATA :: p := by
      rw [Nat.mod_eq_of_lt hwid]
      exact List.take_of_length_le (by simp [hplen])
    rw [htake] at hsent2
    refine ⟨c2, T ++ [[SH1106FB_COMMAND, (0xb0 + n) % 256], [SH1106FB_COMMAND, 0x10],
      [SH1106FB_COMMAND, 0x02], SH1106FB_DATA :: p], ?_, ?_, ?_, ?_⟩
    · rw [update_display_loop, hc]; exact hc2
    · rw [hsent2, hsent, List.append_assoc]
    · simp [hT]; omega
    · intro i hi
      by_cases hin : i < n
      · obtain ⟨q, hq, hqlen, h0, h1, h2, h3⟩ := hpages i hin
        refine ⟨q, hq, hqlen, ?_, ?_, ?_, ?_⟩
        · rw [List.getElem?_append_left (by omega)]; exact h0
        · rw [List.getElem?_append_left (by omega)]; exact h1
        · rw [List.getElem?_append_left (by omega)]; exact h2
        · rw [List.getElem?_append_left (by omega)]; exact h3
      · have hieq : i = n := by omega
        subst hieq
        refine ⟨p, hp, hplen, ?_, ?_, ?_, ?_⟩
        · rw [List.getElem?_append_right (by omega)]; simp [hT]
        · rw [List.getElem?_append_right (by omega)]
          rw [show 4 * i + 1 - T.length = 1 by omega]; rfl
        · rw [List.getElem?_append_right (by omega)]
          rw [show 4 * i + 2 - T.length = 2 by omega]; rfl
        · rw [List.getElem?_append_right (by omega)]
          rw [show 4 * i + 3 - T.length = 3 by omega]; rfl

theorem update_display_loop_blind (par : sh1106fb_par) (pages : Nat) :
    ∀ n (c1 c2 : i2c_client), c1.sent = c2.sent →
      (update_display_loop par pages n c1).map (fun c => c.sent)
        = (update_display_loop par pages n c2).map (fun c => c.sent) := by
  intro n
  induction n with
  | zero => intro c1 c2 h; simpa [update_display_loop] using h
  | succ n ih =>
    intro c1 c2 h
    have hn := ih c1 c2 h
    simp only [update_display_loop]
    cases h1 : update_display_loop par pages n c1 with
    | none =>
      cases h2 : update_display_loop par pages n c2 with
      | none => rfl
      | some d2 => rw [h1, h2] at hn; simp at hn
    | some d1 =>
      cases h2 : update_display_loop par pages n c2 with
      | none => rw [h1, h2] at hn; simp at hn
      | some d2 =>
        rw [h1, h2] at hn
        have hd : d1.sent = d2.sent := by simpa using hn
        simp only [update_display_page]
        cases page_payload par pages n with
        | none => rfl
        | some p =>
          simp only [Option.map_some', write_array_sent, write_cmd_sent, hd]

theorem write_cmd_ok (client : i2c_client) (cmd : Nat) (hok : bus_ok client) :
    (sh1106fb_write_cmd client cmd).1 = 0 := by
  unfold sh1106fb_write_cmd sh1106fb_write_array i2c_master_send
  simp [hok _ _, U32_MOD]

theorem write_cmd_bus_ok (client : i2c_client) (cmd : Nat) (hok : bus_ok client) :
    bus_ok (sh1106fb_write_cmd client cmd).2 := by
  intro n len
  rw [write_cmd_replies]
  exact hok n len

theorem init_sent (par : sh1106fb_par) (client : i2c_client) :
    (sh1106fb_init par client).2.sent = client.sent ++
      List.map (fun c => [0x00, c])
        [0xAE, 0xD5, 0x80, 0xA8, 0x3F, 0xD3, 0x00, 0x40, 0x8D, 0x14, 0x20, 0x02, 0xA1,
         0xC8, 0xDA, 0x12, 0x81, 0x7F, 0xD9, 0xF1, 0xDB, 0x30, 0xA4, 0xA6, 0xAF] := by
  unfold sh1106fb_init
  simp only [write_cmd_sent, List.append_assoc, List.singleton_append, List.cons_append,
    List.nil_append]
  rfl

theorem update_bl_contrast (par : sh1106fb_par) (client : i2c_client) (v : Int) :
    (sh1106fb_update_bl par client v).2.1.contrast = (v % (U32_MOD : Int)).toNat := by
  unfold sh1106fb_update_bl
  dsimp only
  split
  · rfl
  · split <;> rfl

theorem update_bl_ok (par : sh1106fb_par) (client : i2c_client) (v : Int) (hok : bus_ok client) :
    (sh1106fb_update_bl par client v).1 = 0 ∧
    (sh1106fb_update_bl par client v).2.2.sent
      = client.sent ++ [[0x00, 0x81], [0x00, (v % 256).toNat]] := by
  have h1 := write_cmd_ok client SH1106FB_CONTRAST hok
  have hok2 := write_cmd_bus_ok client SH1106FB_CONTRAST hok
  have h2 := write_cmd_ok (sh1106fb_write_cmd client SH1106FB_CONTRAST).2
    ((v % (U32_MOD : Int)).toNat) hok2
  have hmod : (v % (U32_MOD : Int)).toNat % 256 = (v % 256).toNat := by
    unfold U32_MOD
    omega
  unfold sh1106fb_update_bl
  dsimp only
  rw [if_neg (by rw [h1]; decide), if_neg (by rw [h2]; decide)]
  refine ⟨rfl, ?_⟩
  dsimp only
  rw [write_cmd_sent, write_cmd_sent, hmod, List.append_assoc]
  rfl

theorem update_bl_first_fails (par : sh1106fb_par) (client : i2c_client) (v : Int)
    (h : (sh1106fb_write_cmd client SH1106FB_CONTRAST).1 < 0) :
    (sh1106fb_update_bl par client v).1 = (sh1106fb_write_cmd client SH1106FB_CONTRAST).1 ∧
    (sh1106fb_update_bl par client v).2.2.sent = client.sent ++ [[0x00, 0x81]] := by
  unfold sh1106fb_update_bl
  dsimp only
  rw [if_pos h]
  exact ⟨rfl, write_cmd_sent _ _⟩


theorem update_bl_second_fails (par : sh1106fb_par) (client : i2c_client) (v : Int)
    (h1 : ¬ (sh1106fb_write_cmd client SH1106FB_CONTRAST).1 < 0)
    (h2 : (sh1106fb_write_cmd (sh1106fb_write_cmd client SH1106FB_CONTRAST).2
            (v % (U32_MOD : Int)).toNat).1 < 0) :
    (sh1106fb_update_bl par client v).1
      = (sh1106fb_write_cmd (sh1106fb_write_cmd client SH1106FB_CONTRAST).2
          (v % (U32_MOD : Int)).toNat).1 ∧
    (sh1106fb_update_bl par client v).2.2.sent
      = client.sent ++ [[0x00, 0x81], [0x00, (v % 256).toNat]] := by
  have hmod : (v % (U32_MOD : Int)).toNat % 256 = (v % 256).toNat := by
    unfold U32_MOD
    omega
  unfold sh1106fb_update_bl
  dsimp only
  rw [if_neg h1, if_pos h2]
  refine ⟨rfl, ?_⟩
  dsimp only
  rw [write_cmd_sent, write_cmd_sent, hmod, List.append_assoc]
  rfl

theorem init_ret (par : sh1106fb_par) (client : i2c_client) :
    (sh1106fb_init par client).1 = 0 := rfl

theorem clip_count_no_wrap (w total_size p count : Nat) (hnw : count + p < 2 ^ w) :
    clip_count w total_size p count = if count + p > total_size then total_size - p else count := by
  unfold clip_count
  rw [Nat.mod_eq_of_lt hnw]

theorem clip_count_le (w total_size p count : Nat) (hp : p ≤ total_size)
    (hnw : count + p < 2 ^ w) :
    clip_count w total_size p count ≤ count ∧ p + clip_count w total_size p count ≤ total_size := by
  rw [clip_count_no_wrap _ _ _ _ hnw]
  split <;> constructor <;> omega

theorem column_byte_oob (vmem : List Nat) (line_length i j k : Nat)
    (h : vmem.length ≤ vmem_index line_length i j k) :
    ∀ m, k < m → column_byte vmem line_length i j m = none := by
  intro m
  induction m with
  | zero => intro hk; omega
  | succ m ih =>
    intro hk
    by_cases hkm : k = m
    · subst hkm
      have hnone : vmem[vmem_index line_length i j k]? = none := List.getElem?_eq_none h
      simp only [column_byte, hnone]
      cases column_byte vmem line_length i j k <;> rfl
    · have hprev := ih (by omega)
      simp only [column_byte, hprev]

theorem page_columns_none (vmem : List Nat) (line_length height pages i : Nat)
    (h : column_byte vmem line_length i 0 (rows_in_page height pages i) = none) :
    ∀ n, 0 < n → page_columns vmem line_length height pages i n = none := by
  intro n
  induction n with
  | zero => intro hn; omega
  | succ n ih =>
    intro _
    by_cases hn : n = 0
    · subst hn
      simp only [page_columns, h]
    · have hprev := ih (by omega)
      simp only [page_columns, hprev]

theorem update_display_loop_none (par : sh1106fb_par) (pages : Nat)
    (h : page_payload par pages 0 = none) :
    ∀ n, 0 < n → ∀ client, update_display_loop par pages n client = none := by
  intro n
  induction n with
  | zero => intro hn; omega
  | succ n ih =>
    intro _ client
    by_cases hn : n = 0
    · subst hn
      simp only [update_display_loop, update_display_page, h]
    · have hprev := ih (by omega) client
      simp only [update_display_loop, hprev]

/-! ## Page transcoding: the claims -/

/-- C1. For a geometry with `width > 0` and `height > 0`, row stride
`line_length = ceil(width/8)`, a frame buffer of `line_length * height` bytes
(the size held by the `u32` field `smem_len`) and a page `i` below
`page_count = ceil(height/8)`, the payload built for page `i` exists, has
exactly `width` bytes, and bit `k` of its byte `j` is the pixel at
`(row = 8*i + k, col = j)` for every `j < width` and `k < rows_in_page`.
Consequently, after a pixel write of value `v` at `(row, col)`, the payload of
page `row / 8` has `v` in bit `row mod 8` of byte `col`. -/
theorem page_payload_transcodes (par : sh1106fb_par) (pages i : Nat)
    (hw : 0 < par.width) (hh : 0 < par.height)
    (hll : par.line_length = (par.width + 7) / 8)
    (hlen : par.screen_buffer.length = par.line_length * par.height)
    (hsmem : par.smem_len = par.screen_buffer.length) (hu32 : par.smem_len < U32_MOD)
    (hpages : pages = (par.height + 7) / 8) (hi : i < pages) :
    (∃ p, page_payload par pages i = some p ∧ p.length = par.width ∧
      ∀ j, j < par.width → ∀ k, k < rows_in_page par.height pages i →
        (p.getD j 0).testBit k =
          (par.screen_buffer.getD ((8 * i + k) * par.line_length + j / 8) 0).testBit (j % 8)) ∧
    (∀ row col v, row < par.height → col < par.width →
      ∃ q, page_payload
            { par with screen_buffer :=
                spec_set_pixel par.screen_buffer par.line_length row col v }
            pages (row / 8) = some q ∧
          (q.getD col 0).testBit (row % 8) = v) := by
  have _ := hw
  have _ := hh
  have hsz : par.screen_buffer.length < U32_MOD := by rw [← hsmem]; exact hu32
  constructor
  · obtain ⟨p, hp, hplen, hbits⟩ := page_payload_bits par pages i hll hlen hsz hpages hi
    refine ⟨p, hp, hplen, ?_⟩
    intro j hj k hk
    rw [hbits j hj k]
    simp [hk, spec_pixel]
  · intro row col v hrow hcol
    have hlen2 : (spec_set_pixel par.screen_buffer par.line_length row col v).length
        = par.line_length * par.height := by
      simp [spec_set_pixel, hlen]
    obtain ⟨q, hq, _, hbits⟩ := page_payload_bits
      { par with screen_buffer := spec_set_pixel par.screen_buffer par.line_length row col v }
      pages (row / 8) hll hlen2 (by rw [hlen2, ← hlen]; exact hsz) hpages (by omega)
    refine ⟨q, hq, ?_⟩
    rw [hbits col hcol (row % 8)]
    have h1 := rowmod_lt_rows par.height pages row hpages hrow
    have h2 : 8 * (row / 8) + row % 8 = row := by omega
    have h3 := raw_index_lt par.width par.height par.line_length row col hll hcol hrow
    simp only [h1, h2, decide_True, Bool.true_and]
    exact spec_pixel_set _ _ _ _ _ (by omega)

/-- C1, on a 10 x 10 panel with every pixel lit: page 1 (the partial last
page) has ten bytes equal to 3, and clearing the pixel at `(row 9, col 4)`
clears bit 1 of byte 4 of that page. -/
theorem page_payload_transcodes_witness :
    page_payload ⟨127, 10, 10, 2, 20, List.replicate 20 255⟩ 2 1
        = some [3, 3, 3, 3, 3, 3, 3, 3, 3, 3] ∧
    page_payload ⟨127, 10, 10, 2, 20,
        spec_set_pixel (List.replicate 20 255) 2 9 4 false⟩ 2 1
        = some [3, 3, 3, 3, 1, 3, 3, 3, 3, 3] ∧
    ((∃ p, page_payload ⟨127, 10, 10, 2, 20, List.replicate 20 255⟩ 2 1 = some p ∧
        p.length = 10 ∧
        ∀ j, j < 10 → ∀ k, k < rows_in_page 10 2 1 →
          (p.getD j 0).testBit k =
            ((List.replicate 20 255).getD ((8 * 1 + k) * 2 + j / 8) 0).testBit (j % 8)) ∧
      (∀ row col v, row < 10 → col < 10 →
        ∃ q, page_payload ⟨127, 10, 10, 2, 20,
              spec_set_pixel (List.replicate 20 255) 2 row col v⟩ 2 (row / 8) = some q ∧
            (q.getD col 0).testBit (row % 8) = v)) :=
  ⟨by decide, by decide,
   page_payload_transcodes ⟨127, 10, 10, 2, 20, List.replicate 20 255⟩ 2 1
     (by decide) (by decide) (by decide) (by decide) (by decide) (by decide) (by decide)
     (by decide)⟩

/-- C2. When `height` is not a multiple of 8, the payload of the last page
(`page_index = page_count - 1`) is built with `rows_in_page = height mod 8`,
and each of its bytes has every bit at position `>= height mod 8` equal to 0,
so each byte is below `2 ^ (height mod 8)`. -/
theorem last_page_partial_bits (par : sh1106fb_par) (pages i : Nat)
    (h8 : par.height % 8 ≠ 0)
    (hll : par.line_length = (par.width + 7) / 8)
    (hlen : par.screen_buffer.length = par.line_length * par.height)
    (hpages : pages = (par.height + 7) / 8) (hi : i + 1 = pages) :
    rows_in_page par.height pages i = par.height % 8 ∧
    ∃ p, page_payload par pages i = some p ∧ p.length = par.width ∧
      ∀ j, j < par.width →
        (∀ k, par.height % 8 ≤ k → (p.getD j 0).testBit k = false) ∧
        p.getD j 0 < 2 ^ (par.height % 8) := by
  have hrows : rows_in_page par.height pages i = par.height % 8 := by
    simp [rows_in_page, hi, h8]
  refine ⟨hrows, ?_⟩
  obtain ⟨p, hp, hplen, hz⟩ := page_payload_some par pages i hll hlen hpages (by omega)
  refine ⟨p, hp, hplen, ?_⟩
  intro j hj
  have hbits : ∀ k, par.height % 8 ≤ k → (p.getD j 0).testBit k = false := by
    intro k hk
    exact hz j hj k (by rw [hrows]; exact hk)
  exact ⟨hbits, Nat.lt_pow_two_of_testBit _ hbits⟩

/-- C2, the scenario `width = 8`, `height = 10` with every pixel lit: two
pages, page 0 with 8 rows and page 1 with 2 rows, and every byte of
page 1 is 3 (bits 0 and 1 only). -/
theorem last_page_partial_bits_witness :
    DIV_ROUND_UP 10 8 = 2 ∧ rows_in_page 10 2 0 = 8 ∧
    page_payload ⟨127, 10, 8, 1, 10, List.replicate 10 255⟩ 2 0
        = some [255, 255, 255, 255, 255, 255, 255, 255] ∧
    page_payload ⟨127, 10, 8, 1, 10, List.replicate 10 255⟩ 2 1
        = some [3, 3, 3, 3, 3, 3, 3, 3] ∧
    (rows_in_page 10 2 1 = 10 % 8 ∧
      ∃ p, page_payload ⟨127, 10, 8, 1, 10, List.replicate 10 255⟩ 2 1 = some p ∧
        p.length = 8 ∧
        ∀ j, j < 8 →
          (∀ k, 10 % 8 ≤ k → (p.getD j 0).testBit k = false) ∧
          p.getD j 0 < 2 ^ (10 % 8)) :=
  ⟨by decide, by decide, by decide, by decide,
   last_page_partial_bits ⟨127, 10, 8, 1, 10, List.replicate 10 255⟩ 2 1
     (by decide) (by decide) (by decide) (by decide) (by decide)⟩

/-- With `line_length = ceil(width/8)` and a buffer of exactly
`line_length * height` bytes, every index the transcoder reads (as computed,
in `unsigned int`) is below `line_length * height`, the payload of every page
is produced, and the whole refresh runs without an out-of-bounds read. -/
theorem sized_buffer_reads_in_bounds (par : sh1106fb_par) (client : i2c_client)
    (hH : par.height < U32_MOD)
    (hll : par.line_length = (par.width + 7) / 8)
    (hlen : par.screen_buffer.length = par.line_length * par.height) :
    (∀ i j k, i < (par.height + 7) / 8 → j < par.width →
        k < rows_in_page par.height ((par.height + 7) / 8) i →
        vmem_index par.line_length i j k < par.line_length * par.height) ∧
    (∀ i, i < (par.height + 7) / 8 →
        (page_payload par ((par.height + 7) / 8) i).isSome = true) ∧
    (sh1106fb_update_display par client).isSome = true := by
  refine ⟨?_, ?_, ?_⟩
  · intro i j k hi hj hk
    rw [← hlen]
    exact index_in_buffer _ _ _ _ _ _ _ _ hll hlen rfl hi hj hk
  · intro i hi
    obtain ⟨p, hp, _⟩ := page_payload_some par _ i hll hlen rfl hi
    simp [hp]
  · unfold sh1106fb_update_display
    by_cases h7 : par.height + 7 < U32_MOD
    · rw [DIV_ROUND_UP_eq _ h7]
      obtain ⟨c, hc⟩ := update_display_loop_some par ((par.height + 7) / 8)
        (fun i hi => by
          obtain ⟨p, hp, _⟩ := page_payload_some par _ i hll hlen rfl hi
          exact ⟨p, hp⟩) _ (Nat.le_refl _) client
      simp [hc]
    · rw [DIV_ROUND_UP_wrap _ hH h7]
      rfl

/-- When neither `width + 7` nor `ceil(width/8) * height` wraps in a `u32`,
`sh1106fb_probe` sets up `line_length = ceil(width/8)` and a buffer of exactly
`line_length * height` bytes, and the refresh of that state stays inside the
buffer. -/
theorem probe_reads_in_bounds (width height : Nat) (client : i2c_client)
    (hH : height < U32_MOD) (h7 : width + 7 < U32_MOD)
    (hsz : (width + 7) / 8 * height < U32_MOD) :
    (sh1106fb_probe width height).line_length = (width + 7) / 8 ∧
    (sh1106fb_probe width height).screen_buffer.length = (width + 7) / 8 * height ∧
    (sh1106fb_update_display (sh1106fb_probe width height) client).isSome = true := by
  have hll : (sh1106fb_probe width height).line_length = (width + 7) / 8 :=
    DIV_ROUND_UP_eq width h7
  have hlen : (sh1106fb_probe width height).screen_buffer.length = (width + 7) / 8 * height := by
    simp only [sh1106fb_probe, List.length_replicate, DIV_ROUND_UP_eq width h7]
    exact Nat.mod_eq_of_lt hsz
  refine ⟨hll, hlen, ?_⟩
  exact (sized_buffer_reads_in_bounds (sh1106fb_probe width height) client hH hll
    (by rw [hlen, hll]; rfl)).2.2

/-- C9, the code on a wrapping geometry. For `width = 65536` and
`height = 524289`, `sh1106fb_probe` computes `line_length = 8192` and
`vmem_size = (8192 * 524289) mod 2^32 = 8192`, so the buffer has 8192 bytes
while `line_length * height` is `2^32 + 8192`. The refresh runs 65537 pages;
on page 0, column 0, row 1 it reads index 8192, one past the buffer, so the
read leaves the buffer and the out-of-bounds branch is taken. -/
theorem probe_wrap_reads_out_of_bounds :
    (sh1106fb_probe 65536 524289).line_length = 8192 ∧
    (sh1106fb_probe 65536 524289).smem_len = 8192 ∧
    (sh1106fb_probe 65536 524289).screen_buffer.length = 8192 ∧
    (sh1106fb_probe 65536 524289).line_length * (sh1106fb_probe 65536 524289).height
      = 4294967296 + 8192 ∧
    DIV_ROUND_UP (sh1106fb_probe 65536 524289).height 8 = 65537 ∧
    rows_in_page 524289 65537 0 = 8 ∧
    vmem_index 8192 0 0 1 = 8192 ∧
    page_payload (sh1106fb_probe 65536 524289) 65537 0 = none ∧
    sh1106fb_update_display (sh1106fb_probe 65536 524289) good_client = none := by
  have hlen : (sh1106fb_probe 65536 524289).screen_buffer.length = 8192 := by
    show (List.replicate ((DIV_ROUND_UP 65536 8 * 524289) % U32_MOD) 0).length = 8192
    rw [List.length_replicate]
    decide
  have hidx : (sh1106fb_probe 65536 524289).screen_buffer.length
      ≤ vmem_index (sh1106fb_probe 65536 524289).line_length 0 0 1 := by
    rw [hlen]
    decide
  have hrows : 1 < rows_in_page (sh1106fb_probe 65536 524289).height 65537 0 := by decide
  have hpay : page_payload (sh1106fb_probe 65536 524289) 65537 0 = none :=
    page_columns_none _ _ _ _ _ (column_byte_oob _ _ _ _ 1 hidx _ hrows) _ (by decide)
  refine ⟨by decide, by decide, hlen, by decide, by decide, by decide, by decide, hpay, ?_⟩
  unfold sh1106fb_update_display
  rw [show DIV_ROUND_UP (sh1106fb_probe 65536 524289).height 8 = 65537 by decide]
  exact update_display_loop_none _ _ hpay _ (by decide) _

/-! ## Refresh: the claims -/

/-- C3, as amended. On a bus where every transfer succeeds, for a geometry
whose `width + 1` and `height + 7` fit in a `u32` and a frame buffer of
`line_length * height` bytes, refresh issues `4 * page_count` transfers with
`page_count = ceil(height/8)`; the entries of page `i` are, in order, the
commands `[0x00, (0xB0 + i) mod 256]`, `[0x00, 0x10]`, `[0x00, 0x02]` and one
data transfer `0x40 :: payload i` with a payload of `width` bytes. The
page-select byte is `0xB0 + i` itself exactly while `i < 80`. -/
theorem refresh_trace (par : sh1106fb_par) (client : i2c_client)
    (hok : bus_ok client) (hnew : client.sent = [])
    (hwid : par.width + 1 < U32_MOD) (hH : par.height + 7 < U32_MOD)
    (hll : par.line_length = (par.width + 7) / 8)
    (hlen : par.screen_buffer.length = par.line_length * par.height) :
    ∃ c, sh1106fb_update_display par client = some c ∧
      c.sent.length = 4 * ((par.height + 7) / 8) ∧
      ∀ i, i < (par.height + 7) / 8 →
        ∃ p, page_payload par ((par.height + 7) / 8) i = some p ∧ p.length = par.width ∧
          c.sent[4 * i]? = some [0x00, (0xB0 + i) % 256] ∧
          (i < 80 → c.sent[4 * i]? = some [0x00, 0xB0 + i]) ∧
          c.sent[4 * i + 1]? = some [0x00, 0x10] ∧
          c.sent[4 * i + 2]? = some [0x00, 0x02] ∧
          c.sent[4 * i + 3]? = some (0x40 :: p) := by
  have _ := hok
  unfold sh1106fb_update_display
  rw [DIV_ROUND_UP_eq _ hH]
  obtain ⟨c, T, hc, hsent, hT, hpages⟩ :=
    update_display_loop_trace par ((par.height + 7) / 8) hwid
      (fun i hi => by
        obtain ⟨p, hp, hplen, _⟩ := page_payload_some par _ i hll hlen rfl hi
        exact ⟨p, hp, hplen⟩) _ (Nat.le_refl _) client
  rw [hnew, List.nil_append] at hsent
  refine ⟨c, hc, by rw [hsent, hT], ?_⟩
  intro i hi
  obtain ⟨p, hp, hplen, h0, h1, h2, h3⟩ := hpages i hi
  rw [hsent]
  refine ⟨p, hp, hplen, h0, ?_, h1, h2, h3⟩
  intro h80
  rw [h0, Nat.mod_eq_of_lt (by omega)]
  rfl

set_option maxRecDepth 20000 in
/-- C3, the scenario `width = 96`, `height = 16` on the state set up at
attach: 2 pages, that is 2 x (3 two-byte command messages + one data message
of 1 + 96 bytes). -/
theorem refresh_trace_witness :
    DIV_ROUND_UP 16 8 = 2 ∧
    (sh1106fb_update_display (sh1106fb_probe 96 16) good_client).map
        (fun c => c.sent.map List.length) = some [2, 2, 2, 97, 2, 2, 2, 97] ∧
    (∃ c, sh1106fb_update_display (sh1106fb_probe 96 16) good_client = some c ∧
      c.sent.length = 4 * (((sh1106fb_probe 96 16).height + 7) / 8) ∧
      ∀ i, i < ((sh1106fb_probe 96 16).height + 7) / 8 →
        ∃ p, page_payload (sh1106fb_probe 96 16)
              (((sh1106fb_probe 96 16).height + 7) / 8) i = some p ∧
          p.length = (sh1106fb_probe 96 16).width ∧
          c.sent[4 * i]? = some [0x00, (0xB0 + i) % 256] ∧
          (i < 80 → c.sent[4 * i]? = some [0x00, 0xB0 + i]) ∧
          c.sent[4 * i + 1]? = some [0x00, 0x10] ∧
          c.sent[4 * i + 2]? = some [0x00, 0x02] ∧
          c.sent[4 * i + 3]? = some (0x40 :: p)) :=
  ⟨by decide, by decide,
   refresh_trace (sh1106fb_probe 96 16) good_client (fun _ _ => rfl) rfl
     (by decide) (by decide) (by decide)
     (by simp [sh1106fb_probe, DIV_ROUND_UP, U32_MOD])⟩

/-- C3 as stated fails for `width = 1`, `height = 648` (81 pages): the first
transfer of page 80 carries the byte `0x00`, not `0xB0 + 80 = 0x100`, which
no byte can hold. -/
theorem refresh_trace_counterexample :
    ∃ c, sh1106fb_update_display ⟨127, 648, 1, 1, 648, List.replicate 648 0⟩ good_client
          = some c ∧
      c.sent.length = 4 * 81 ∧
      c.sent[4 * 80]? = some [0x00, 0x00] ∧
      c.sent[4 * 80]? ≠ some [0x00, 0xB0 + 80] := by
  have hpg : DIV_ROUND_UP 648 8 = 81 := by decide
  obtain ⟨c, T, hc, hsent, hT, hpages⟩ :=
    update_display_loop_trace ⟨127, 648, 1, 1, 648, List.replicate 648 0⟩ 81 (by decide)
      (fun i hi => by
        obtain ⟨p, hp, hplen, _⟩ :=
          page_payload_some ⟨127, 648, 1, 1, 648, List.replicate 648 0⟩ 81 i rfl
            (List.length_replicate 648 0) (by decide) hi
        exact ⟨p, hp, hplen⟩) 81 (Nat.le_refl _) good_client
  have hnil : good_client.sent = [] := rfl
  rw [hnil, List.nil_append] at hsent
  obtain ⟨p, _, _, h0, _⟩ := hpages 80 (by decide)
  refine ⟨c, ?_, by rw [hsent, hT], ?_, ?_⟩
  · unfold sh1106fb_update_display
    rw [show DIV_ROUND_UP
      (sh1106fb_par.height ⟨127, 648, 1, 1, 648, List.replicate 648 0⟩) 8 = 81 from hpg]
    exact hc
  · rw [hsent, h0]; rfl
  · rw [hsent, h0]; decide

/-- C4, as amended. Refresh never looks at the result of a transfer: from the
same log, two buses with arbitrary (failing or succeeding) answers see exactly
the same sequence of transfers, so a failure stops nothing. -/
theorem refresh_ignores_failures (par : sh1106fb_par) (r1 r2 : Nat → Nat → Int)
    (log : List (List Nat)) :
    (sh1106fb_update_display par ⟨r1, log⟩).map (fun c => c.sent)
      = (sh1106fb_update_display par ⟨r2, log⟩).map (fun c => c.sent) :=
  update_display_loop_blind par _ _ _ _ rfl

/-- C4 as stated fails for `width = 1`, `height = 16` (2 pages) on a bus that
answers `-5` to transfer 3, the data transfer of page 0: `sh1106fb_write_array`
reports `-5`, yet all 8 transfers are issued, the page-select command of
page 1 among them. -/
theorem refresh_abort_counterexample :
    (sh1106fb_write_array ⟨(failing_client 3 (-5)).replies, [[], [], []]⟩
        ⟨SH1106FB_DATA, [0]⟩ 1).1 = -5 ∧
    (sh1106fb_update_display ⟨127, 16, 1, 1, 16, List.replicate 16 0⟩
        (failing_client 3 (-5))).map (fun c => c.sent)
      = some [[0x00, 0xB0], [0x00, 0x10], [0x00, 0x02], [0x40, 0x00],
              [0x00, 0xB1], [0x00, 0x10], [0x00, 0x02], [0x40, 0x00]] := by
  constructor <;> decide

/-! ## Initialisation: the claims -/

/-- C8. On a bus where every send succeeds, `sh1106fb_init` returns 0 and
emits one fixed sequence of 25 two-byte messages `[0x00, c]`, the same for
every parameter record: display off, clock divider, multiplex ratio, display
offset, page start address, charge pump, page addressing mode, segment remap,
COM scan direction, COM pins, contrast select followed by 127 (the value
`sh1106fb_probe` puts in the contrast field at attach), pre-charge, VCOMH,
0xA4 and 0xA6, display on. -/
theorem init_program (par : sh1106fb_par) (client : i2c_client)
    (hok : bus_ok client) (hnew : client.sent = []) :
    (sh1106fb_init par client).1 = 0 ∧
    (sh1106fb_init par client).2.sent =
      List.map (fun c => [0x00, c])
        [0xAE, 0xD5, 0x80, 0xA8, 0x3F, 0xD3, 0x00, 0x40, 0x8D, 0x14, 0x20, 0x02, 0xA1,
         0xC8, 0xDA, 0x12, 0x81, 127, 0xD9, 0xF1, 0xDB, 0x30, 0xA4, 0xA6, 0xAF] ∧
    (∀ width height, (sh1106fb_probe width height).contrast = 127) ∧
    (∀ par2, (sh1106fb_init par2 client).2.sent = (sh1106fb_init par client).2.sent) := by
  have _ := hok
  refine ⟨rfl, ?_, fun _ _ => rfl, fun _ => rfl⟩
  rw [init_sent, hnew, List.nil_append]

/-- C8, on the state set up at attach for a 96 x 16 panel. -/
theorem init_program_witness :
    bus_ok good_client ∧
    ((sh1106fb_init (sh1106fb_probe 96 16) good_client).1 = 0 ∧
    (sh1106fb_init (sh1106fb_probe 96 16) good_client).2.sent =
      List.map (fun c => [0x00, c])
        [0xAE, 0xD5, 0x80, 0xA8, 0x3F, 0xD3, 0x00, 0x40, 0x8D, 0x14, 0x20, 0x02, 0xA1,
         0xC8, 0xDA, 0x12, 0x81, 127, 0xD9, 0xF1, 0xDB, 0x30, 0xA4, 0xA6, 0xAF] ∧
    (∀ width height, (sh1106fb_probe width height).contrast = 127) ∧
    (∀ par2, (sh1106fb_init par2 good_client).2.sent
        = (sh1106fb_init (sh1106fb_probe 96 16) good_client).2.sent)) :=
  ⟨fun _ _ => rfl, init_program (sh1106fb_probe 96 16) good_client (fun _ _ => rfl) rfl⟩

/-- C5, the code at a failing bus. Whatever the bus answers, `sh1106fb_init`
sends all 25 commands and returns 0; on a bus whose very first transfer fails
with `-5` (so that `sh1106fb_write_cmd` reports `-5` for display off), the
24 remaining commands still go out and the caller is told 0. -/
theorem init_failure_not_reported :
    (∀ par client, (sh1106fb_init par client).1 = 0 ∧
      (sh1106fb_init par client).2.sent.length = client.sent.length + 25) ∧
    (sh1106fb_write_cmd (failing_client 0 (-5)) SH1106FB_DISPLAY_OFF).1 = -5 ∧
    (sh1106fb_init (sh1106fb_probe 8 8) (failing_client 0 (-5))).1 = 0 ∧
    (sh1106fb_init (sh1106fb_probe 8 8) (failing_client 0 (-5))).2.sent.length = 25 := by
  refine ⟨fun par client => ⟨rfl, ?_⟩, by decide, rfl, ?_⟩
  · rw [init_sent]; simp
  · rw [init_sent]; rfl

/-! ## Contrast: the claims -/

/-- C6, as amended. `sh1106fb_update_bl` stores the requested value in the
contrast field before it sends anything: after the call the stored contrast is
the request (reduced to a `u32`) and the read accessor returns the requested
`int`, whether the sends succeed or fail. If either of the two sends reports
a negative result, that failure is returned: after a failing first send the
operand is not sent, after a failing second send both commands have gone out.
When both sends succeed the result is 0 and the two commands `0x81`,
`v mod 256` have been sent. -/
theorem set_contrast_stores_first (par : sh1106fb_par) (client : i2c_client) (v : Int) :
    (sh1106fb_update_bl par client v).2.1.contrast = (v % (U32_MOD : Int)).toNat ∧
    (-2147483648 ≤ v → v < 2147483648 →
      sh1106fb_get_brightness (sh1106fb_update_bl par client v).2.1 = v) ∧
    ((sh1106fb_write_cmd client SH1106FB_CONTRAST).1 < 0 →
      (sh1106fb_update_bl par client v).1 = (sh1106fb_write_cmd client SH1106FB_CONTRAST).1 ∧
      (sh1106fb_update_bl par client v).1 < 0 ∧
      (sh1106fb_update_bl par client v).2.2.sent = client.sent ++ [[0x00, 0x81]]) ∧
    (¬ (sh1106fb_write_cmd client SH1106FB_CONTRAST).1 < 0 →
      (sh1106fb_write_cmd (sh1106fb_write_cmd client SH1106FB_CONTRAST).2
          (v % (U32_MOD : Int)).toNat).1 < 0 →
      (sh1106fb_update_bl par client v).1
        = (sh1106fb_write_cmd (sh1106fb_write_cmd client SH1106FB_CONTRAST).2
            (v % (U32_MOD : Int)).toNat).1 ∧
      (sh1106fb_update_bl par client v).1 < 0 ∧
      (sh1106fb_update_bl par client v).2.2.sent
        = client.sent ++ [[0x00, 0x81], [0x00, (v % 256).toNat]]) ∧
    (bus_ok client →
      (sh1106fb_update_bl par client v).1 = 0 ∧
      (sh1106fb_update_bl par client v).2.2.sent
        = client.sent ++ [[0x00, 0x81], [0x00, (v % 256).toNat]]) := by
  refine ⟨update_bl_contrast par client v, ?_, ?_, ?_, update_bl_ok par client v⟩
  · intro h0 h1
    unfold sh1106fb_get_brightness
    rw [update_bl_contrast]
    simp only [U32_MOD, Nat.cast_ofNat]
    split
    · omega
    · omega
  · intro h
    obtain ⟨hr, hs⟩ := update_bl_first_fails par client v h
    exact ⟨hr, by rw [hr]; exact h, hs⟩
  · intro h1 h2
    obtain ⟨hr, hs⟩ := update_bl_second_fails par client v h1 h2
    exact ⟨hr, by rw [hr]; exact h2, hs⟩

/-- C6, on the state set up at attach and a request of 200, on a bus whose
second transfer (the operand) fails with `-5`: the first send is fine, the
second reports `-5`, the call returns `-5` after both commands have gone out,
and 200 is stored and read back. -/
theorem set_contrast_stores_first_witness :
    ¬ (sh1106fb_write_cmd (failing_client 1 (-5)) SH1106FB_CONTRAST).1 < 0 ∧
    (sh1106fb_write_cmd (sh1106fb_write_cmd (failing_client 1 (-5)) SH1106FB_CONTRAST).2
        ((200 : Int) % (U32_MOD : Int)).toNat).1 < 0 ∧
    (sh1106fb_update_bl (sh1106fb_probe 8 8) (failing_client 1 (-5)) 200).1 = -5 ∧
    (sh1106fb_update_bl (sh1106fb_probe 8 8) (failing_client 1 (-5)) 200).2.1.contrast = 200 ∧
    (sh1106fb_update_bl (sh1106fb_probe 8 8) good_client 200).1 = 0 ∧
    (sh1106fb_update_bl (sh1106fb_probe 8 8) good_client 200).2.1.contrast = 200 ∧
    ((sh1106fb_update_bl (sh1106fb_probe 8 8) (failing_client 1 (-5)) 200).2.1.contrast
        = ((200 : Int) % (U32_MOD : Int)).toNat ∧
    ((-2147483648 : Int) ≤ 200 → (200 : Int) < 2147483648 →
      sh1106fb_get_brightness
        (sh1106fb_update_bl (sh1106fb_probe 8 8) (failing_client 1 (-5)) 200).2.1 = 200) ∧
    ((sh1106fb_write_cmd (failing_client 1 (-5)) SH1106FB_CONTRAST).1 < 0 →
      (sh1106fb_update_bl (sh1106fb_probe 8 8) (failing_client 1 (-5)) 200).1
        = (sh1106fb_write_cmd (failing_client 1 (-5)) SH1106FB_CONTRAST).1 ∧
      (sh1106fb_update_bl (sh1106fb_probe 8 8) (failing_client 1 (-5)) 200).1 < 0 ∧
      (sh1106fb_update_bl (sh1106fb_probe 8 8) (failing_client 1 (-5)) 200).2.2.sent
        = (failing_client 1 (-5)).sent ++ [[0x00, 0x81]]) ∧
    (¬ (sh1106fb_write_cmd (failing_client 1 (-5)) SH1106FB_CONTRAST).1 < 0 →
      (sh1106fb_write_cmd (sh1106fb_write_cmd (failing_client 1 (-5)) SH1106FB_CONTRAST).2
          ((200 : Int) % (U32_MOD : Int)).toNat).1 < 0 →
      (sh1106fb_update_bl (sh1106fb_probe 8 8) (failing_client 1 (-5)) 200).1
        = (sh1106fb_write_cmd
            (sh1106fb_write_cmd (failing_client 1 (-5)) SH1106FB_CONTRAST).2
            ((200 : Int) % (U32_MOD : Int)).toNat).1 ∧
      (sh1106fb_update_bl (sh1106fb_probe 8 8) (failing_client 1 (-5)) 200).1 < 0 ∧
      (sh1106fb_update_bl (sh1106fb_probe 8 8) (failing_client 1 (-5)) 200).2.2.sent
        = (failing_client 1 (-5)).sent ++ [[0x00, 0x81], [0x00, ((200 : Int) % 256).toNat]]) ∧
    (bus_ok (failing_client 1 (-5)) →
      (sh1106fb_update_bl (sh1106fb_probe 8 8) (failing_client 1 (-5)) 200).1 = 0 ∧
      (sh1106fb_update_bl (sh1106fb_probe 8 8) (failing_client 1 (-5)) 200).2.2.sent
        = (failing_client 1 (-5)).sent ++ [[0x00, 0x81], [0x00, ((200 : Int) % 256).toNat]])) :=
  ⟨by decide, by decide, by decide, by decide, by decide, by decide,
   set_contrast_stores_first (sh1106fb_probe 8 8) (failing_client 1 (-5)) 200⟩

/-- C6 as stated fails: with 127 stored, a request of 200 on a bus whose
first transfer fails with `-5` returns `-5`, yet the stored contrast is 200
and the read accessor returns 200, not the last successfully stored 127. A
first transfer that comes back short (1 byte of 2) is logged by
`sh1106fb_write_array`, which returns 1, and the call still returns 0. -/
theorem set_contrast_counterexample :
    (sh1106fb_probe 8 8).contrast = 127 ∧
    (sh1106fb_update_bl (sh1106fb_probe 8 8) (failing_client 0 (-5)) 200).1 = -5 ∧
    (sh1106fb_update_bl (sh1106fb_probe 8 8) (failing_client 0 (-5)) 200).2.1.contrast = 200 ∧
    sh1106fb_get_brightness
      (sh1106fb_update_bl (sh1106fb_probe 8 8) (failing_client 0 (-5)) 200).2.1 = 200 ∧
    (sh1106fb_write_cmd (failing_client 0 1) SH1106FB_CONTRAST).1 = 1 ∧
    (sh1106fb_update_bl (sh1106fb_probe 8 8) (failing_client 0 1) 200).1 = 0 := by
  refine ⟨by decide, by decide, by decide, by decide, by decide, by decide⟩

/-- C7, as amended. `sh1106fb_update_bl` has no range check of its own: for
every requested `int` value `v`, on a bus where every send succeeds, it
returns 0, stores `v mod 2^32` in the contrast field and sends `0x81`
followed by the operand `v mod 256`. For `v` in `[0, 255]` the stored value
and the operand are both `v`. -/
theorem set_contrast_no_range_check (par : sh1106fb_par) (client : i2c_client) (v : Int)
    (hok : bus_ok client) :
    (sh1106fb_update_bl par client v).1 = 0 ∧
    (sh1106fb_update_bl par client v).2.2.sent
      = client.sent ++ [[0x00, 0x81], [0x00, (v % 256).toNat]] ∧
    (sh1106fb_update_bl par client v).2.1.contrast = (v % (U32_MOD : Int)).toNat ∧
    (0 ≤ v → v ≤ 255 →
      ((sh1106fb_update_bl par client v).2.1.contrast : Int) = v ∧
      (((v % 256).toNat : Nat) : Int) = v) := by
  obtain ⟨h1, h2⟩ := update_bl_ok par client v hok
  refine ⟨h1, h2, update_bl_contrast par client v, ?_⟩
  intro h0 h255
  rw [update_bl_contrast]
  unfold U32_MOD
  omega

/-- C7, on the state set up at attach and the in-range request 255. -/
theorem set_contrast_no_range_check_witness :
    bus_ok good_client ∧
    ((sh1106fb_update_bl (sh1106fb_probe 8 8) good_client 255).1 = 0 ∧
    (sh1106fb_update_bl (sh1106fb_probe 8 8) good_client 255).2.2.sent
      = good_client.sent ++ [[0x00, 0x81], [0x00, ((255 : Int) % 256).toNat]] ∧
    (sh1106fb_update_bl (sh1106fb_probe 8 8) good_client 255).2.1.contrast
      = ((255 : Int) % (U32_MOD : Int)).toNat ∧
    ((0 : Int) ≤ 255 → (255 : Int) ≤ 255 →
      ((sh1106fb_update_bl (sh1106fb_probe 8 8) good_client 255).2.1.contrast : Int) = 255 ∧
      ((((255 : Int) % 256).toNat : Nat) : Int) = 255)) :=
  ⟨fun _ _ => rfl,
   set_contrast_no_range_check (sh1106fb_probe 8 8) good_client 255 (fun _ _ => rfl)⟩

/-- C7 as stated fails: the request 256 is neither rejected nor saturated. On
a good bus the call returns 0, the operand sent after `0x81` is `0x00` (not
255), and the stored contrast is 256, outside `[0, 255]`; the request `-1`
sends the operand `0xFF` and stores `2^32 - 1`. -/
theorem set_contrast_range_counterexample :
    (sh1106fb_update_bl (sh1106fb_probe 8 8) good_client 256).1 = 0 ∧
    (sh1106fb_update_bl (sh1106fb_probe 8 8) good_client 256).2.2.sent
      = [[0x00, 0x81], [0x00, 0x00]] ∧
    (sh1106fb_update_bl (sh1106fb_probe 8 8) good_client 256).2.1.contrast = 256 ∧
    (sh1106fb_update_bl (sh1106fb_probe 8 8) good_client (-1)).1 = 0 ∧
    (sh1106fb_update_bl (sh1106fb_probe 8 8) good_client (-1)).2.2.sent
      = [[0x00, 0x81], [0x00, 0xFF]] ∧
    (sh1106fb_update_bl (sh1106fb_probe 8 8) good_client (-1)).2.1.contrast = 4294967295 := by
  refine ⟨by decide, by decide, by decide, by decide, by decide, by decide⟩

/-! ## Raw write: the claim -/

/-- C10, as amended. When the sum `count + p` does not wrap in `w`-bit
words (`w <= 64`, offset below `2^w`): the call returns `-EINVAL` with no copy
and the position unchanged when `p > total_size` or the clipped count is 0;
otherwise the range handed to the copy is `[p, p + count1)` with `count1` the
clipped count and `p + count1 <= total_size`. When the copy succeeds the file
position advances by `count1` and, `count1` fitting an `ssize_t`, the value
returned is `count1`; when the copy faults, `-EFAULT` is returned and the
position is unchanged. -/
theorem write_clip_no_wrap (w total_size ppos count : Nat) (fault : Bool)
    (hw : w ≤ 64) (hp : ppos < 2 ^ w) (hnw : count + ppos < 2 ^ w) :
    ((total_size < ppos ∨ clip_count w total_size ppos count = 0) →
      sh1106fb_write w total_size ppos count fault = ⟨-EINVAL, ppos, none⟩) ∧
    (¬ (total_size < ppos ∨ clip_count w total_size ppos count = 0) →
      (sh1106fb_write w total_size ppos count fault).copied
        = some (ppos, clip_count w total_size ppos count) ∧
      ppos + clip_count w total_size ppos count ≤ total_size ∧
      ppos + clip_count w total_size ppos count < 2 ^ w ∧
      (fault = false →
        (sh1106fb_write w total_size ppos count fault).ppos
          = ppos + clip_count w total_size ppos count ∧
        (clip_count w total_size ppos count < 2 ^ (w - 1) →
          (sh1106fb_write w total_size ppos count fault).ret
            = (clip_count w total_size ppos count : Int))) ∧
      (fault = true →
        (sh1106fb_write w total_size ppos count fault).ret = -EFAULT ∧
        (sh1106fb_write w total_size ppos count fault).ppos = ppos)) := by
  have h64 : 2 ^ w ≤ 2 ^ 64 := Nat.pow_le_pow_right (by norm_num) hw
  constructor
  · intro h
    unfold sh1106fb_write
    simp only [Nat.mod_eq_of_lt hp]
    rcases h with h | h
    · rw [if_pos h]
    · by_cases h1 : ppos > total_size
      · rw [if_pos h1]
      · rw [if_neg h1, if_pos h]
  · intro h
    have h1 : ¬ ppos > total_size := fun hgt => h (Or.inl hgt)
    have h2 : ¬ clip_count w total_size ppos count = 0 := fun hz => h (Or.inr hz)
    obtain ⟨hle, hin⟩ := clip_count_le w total_size ppos count (by omega) hnw
    have hmod : (ppos + clip_count w total_size ppos count) % 2 ^ 64
        = ppos + clip_count w total_size ppos count := Nat.mod_eq_of_lt (by omega)
    unfold sh1106fb_write
    simp only [Nat.mod_eq_of_lt hp, if_neg h1, if_neg h2]
    refine ⟨?_, hin, by omega, ?_, ?_⟩
    · cases fault <;> rfl
    · intro hf
      subst hf
      refine ⟨hmod, ?_⟩
      intro hs
      simp [hs]
    · intro hf
      subst hf
      exact ⟨rfl, rfl⟩

/-- C10, on 64-bit words with a 16-byte buffer: a request of 100 bytes at
offset 10 is clipped to 6 bytes, copied into `[10, 16)`, and 6 is returned
with the position moved to 16. -/
theorem write_clip_no_wrap_witness :
    sh1106fb_write 64 16 10 100 false = ⟨6, 16, some (10, 6)⟩ ∧
    clip_count 64 16 10 100 = 6 ∧
    (((16 < 10 ∨ clip_count 64 16 10 100 = 0) →
      sh1106fb_write 64 16 10 100 false = ⟨-EINVAL, 10, none⟩) ∧
    (¬ (16 < 10 ∨ clip_count 64 16 10 100 = 0) →
      (sh1106fb_write 64 16 10 100 false).copied = some (10, clip_count 64 16 10 100) ∧
      10 + clip_count 64 16 10 100 ≤ 16 ∧
      10 + clip_count 64 16 10 100 < 2 ^ 64 ∧
      (false = false →
        (sh1106fb_write 64 16 10 100 false).ppos = 10 + clip_count 64 16 10 100 ∧
        (clip_count 64 16 10 100 < 2 ^ (64 - 1) →
          (sh1106fb_write 64 16 10 100 false).ret = (clip_count 64 16 10 100 : Int))) ∧
      (false = true →
        (sh1106fb_write 64 16 10 100 false).ret = -EFAULT ∧
        (sh1106fb_write 64 16 10 100 false).ppos = 10))) :=
  ⟨by decide, by decide,
   write_clip_no_wrap 64 16 10 100 false (by decide) (by decide) (by decide)⟩

/-- C10 as stated fails. With 64-bit words, a buffer of 16 bytes, offset 1
and count `2^64 - 1`, the sum `count + p` wraps to 0, the count is not
clipped, and the copy is handed the range `[1, 1 + (2^64 - 1))`, which ends
far beyond the buffer; the value returned is `-1` and the position wraps to
0. A faulting copy returns `-EFAULT` and does not move the position. With
32-bit words and a buffer of `3 * 2^30` bytes, a full-size request at offset 0
returns the count read as an `ssize_t`, `-2^30`. -/
theorem write_clip_counterexample :
    sh1106fb_write 64 16 1 (2 ^ 64 - 1) false = ⟨-1, 0, some (1, 2 ^ 64 - 1)⟩ ∧
    ¬ (1 + (2 ^ 64 - 1) ≤ 16) ∧
    sh1106fb_write 64 16 0 4 true = ⟨-EFAULT, 0, some (0, 4)⟩ ∧
    sh1106fb_write 32 (3 * 2 ^ 30) 0 (3 * 2 ^ 30) false
      = ⟨-(2 ^ 30), 3 * 2 ^ 30, some (0, 3 * 2 ^ 30)⟩ := by
  refine ⟨by decide, by decide, by decide, by decide⟩

end SH1106FB
